import Mathlib

/-!
# nomad-dispatcher: the monitoring loops of `dispatcher/dispatcher.go`

A shallow embedding of `monitorJob`, `monitorAlloc`, `monitorLog` and `find`.

* Every `for { ... }` polling loop is driven by the list of responses that the
  orchestrator API hands back, one per cycle.  A run over a finite list either
  returns (with the number of polls it performed) or is still inside the loop,
  waiting for the next response.
* Side effects (log lines, goroutine launches, closing the cancel channel) are
  recorded, in program order, in a trace of `Action`s.
* `time.Sleep` changes no variable and is not recorded.
* Go `int` is `Int`.  The only arithmetic on it is `retry++`, guarded by
  `retry < ceiling`, so the counter never leaves the range of the ceiling and
  no wrap-around can happen.
-/

namespace NomadDispatcher

/-! ## Data model -/

/-- The part of `Dispatcher` that the monitoring loops read. -/
structure Dispatcher where
  jobRetry : Int
  allocRetry : Int
  deriving DecidableEq, Repr

/-- Go `type state struct { State string; Events int }`.  `Events` only ever
holds `0` or a `len(...)`, hence a natural number. -/
structure state where
  State : String
  Events : Nat
  deriving DecidableEq, Repr

/-- The fields of `api.Job` read by `monitorJob`.  `Status` is what `*job.Status`
reads; the API client fills the pointer whenever the fetch returns no error. -/
structure Job where
  Status : String
  deriving DecidableEq, Repr

/-- The field of `api.AllocationListStub` read by `monitorJob`. -/
structure AllocationListStub where
  ID : String
  deriving DecidableEq, Repr

/-- The fields of `api.TaskEvent` read by `monitorAlloc` (`Type_` is the Go field
`Type`, a reserved word here). -/
structure TaskEvent where
  Type_ : String
  DisplayMessage : String
  deriving DecidableEq, Repr

/-- The fields of `api.TaskState` read by `monitorAlloc`. -/
structure TaskState where
  State : String
  Events : List TaskEvent
  deriving DecidableEq, Repr

/-- The part of `api.Allocation` read by `monitorAlloc`.  `RescheduleInfo` is the
pair `(done, left)` that the library call `a.RescheduleInfo(time.Time{})` yields
for this allocation; `TaskStates` lists the entries of the Go map in the order in
which `range` visits them on this cycle. -/
structure Allocation where
  ClientStatus : String
  RescheduleInfo : Int × Int
  TaskStates : List (String × TaskState)
  deriving DecidableEq, Repr

/-- The field of `api.StreamFrame` read by `monitorLog`. -/
structure StreamFrame where
  Data : String
  deriving DecidableEq, Repr

/-- Modelled from the spec: the value of the library constant
`api.AllocClientStatusComplete`, client status `complete`. -/
def AllocClientStatusComplete : String := "complete"

/-- Modelled from the spec: the value of the library constant
`api.AllocClientStatusFailed`, client status `failed`. -/
def AllocClientStatusFailed : String := "failed"

/-- Modelled from the spec: the value of the library constant
`api.AllocClientStatusLost`, client status `lost`. -/
def AllocClientStatusLost : String := "lost"

/-- One observable side effect of the monitoring code. -/
inductive Action where
  /-- Records `log.Error(err)`. -/
  | logError (msg : String)
  /-- Records `log.Warn` / `log.Warnf`. -/
  | logWarn (msg : String)
  /-- Records `log.Info` / `log.Infof`. -/
  | logInfo (msg : String)
  /-- Records `log.Debug` / `log.Debugf`. -/
  | logDebug (msg : String)
  /-- Records `g.Go(func() error { ... d.monitorAlloc(c, logger, alloc.ID, g) ... })`. -/
  | goMonitorAlloc (allocID : String)
  /-- Records `c.AllocFS().Logs(a, true, taskN, kind, "start", 0, cancel, ...)` followed by
  `g.Go(func() error { monitorLog(label, ...) ... })`: one log stream is started. -/
  | goMonitorLog (taskN : String) (kind : String) (label : String)
  /-- Records `log.Debug(e.Type + ":"); log.Info(e.DisplayMessage)` for one event of task
  `taskN` (the task name is kept beside the event; the logger prints only the event). -/
  | taskEvent (taskN : String) (e : TaskEvent)
  /-- Records `fmt.Print(s)`. -/
  | print (s : String)
  /-- Records `close(cancel)`. -/
  | closeCancel
  deriving DecidableEq, Repr

/-- How a monitoring function returns. -/
inductive Exit where
  /-- Is `return nil`. -/
  | ok
  /-- Is `return fmt.Errorf(...)`, with the rendered message. -/
  | error (msg : String)
  deriving DecidableEq, Repr

/-- The effect of one pass through a loop body: the loop variables afterwards, the
actions performed, and `some r` when the body returned `r` out of the function
(`none`: the loop goes round again). -/
structure Cycle (σ : Type) where
  st : σ
  acts : List Action
  exit : Option Exit

/-- The effect of running a loop on a finite list of responses: the loop variables,
all actions so far, the number of polls performed, and `some r` when the function has
returned `r` (`none`: it is inside the loop, about to poll again). -/
structure Run (σ : Type) where
  st : σ
  trace : List Action
  polls : Nat
  result : Option Exit

/-- Go `for { body }`, fed with one response per iteration. -/
def forLoop {σ π : Type} (body : σ → π → Cycle σ) : σ → List π → Run σ
  | s, [] => ⟨s, [], 0, none⟩
  | s, p :: ps =>
    match (body s p).exit with
    | some r => ⟨(body s p).st, (body s p).acts, 1, some r⟩
    | none =>
      let r := forLoop body (body s p).st ps
      ⟨r.st, (body s p).acts ++ r.trace, r.polls + 1, r.result⟩

/-! ## `find` -/

/-- Go `func find(source []string, value string) bool`. -/
def find : List String → String → Bool
  | [], _ => false
  | item :: source, value => if item = value then true else find source value

/-! ## `monitorJob` -/

/-- What one cycle of `monitorJob` gets from the API: the results of
`c.Jobs().Info(ID, ...)` and of `c.Jobs().Allocations(ID, false, ...)`.  A Go call
returns a value and an error; the value is only read when the error is nil. -/
structure JobPoll where
  job : Job
  jobErr : Option String
  allocs : List AllocationListStub
  allocsErr : Option String
  deriving DecidableEq, Repr

/-- Local variables of `monitorJob`. -/
structure JobVars where
  retry : Int
  knownAlloc : List String
  saveState : String
  deriving DecidableEq, Repr

/-- The scan `for _, i := range errs { if i != nil { ... } }`: its body leaves the loop
(by `continue job` or `return`) at the first non-nil entry, which is returned here. -/
def firstError : List (Option String) → Option String
  | [] => none
  | none :: errs => firstError errs
  | some i :: _ => some i

/-- The message of `fmt.Errorf("cannot get job data in %d retries", d.jobRetry)`. -/
def jobRetryError (d : Dispatcher) : String :=
  "cannot get job data in " ++ toString d.jobRetry ++ " retries"

/-- The loop `for _, alloc := range allocs { if !find(knownAlloc, alloc.ID) { g.Go(...);
knownAlloc = append(knownAlloc, alloc.ID) } }`. -/
def launchAllocs : List String → List AllocationListStub → List String × List Action
  | knownAlloc, [] => (knownAlloc, [])
  | knownAlloc, alloc :: allocs =>
    if !find knownAlloc alloc.ID then
      ((launchAllocs (knownAlloc ++ [alloc.ID]) allocs).1,
        Action.goMonitorAlloc alloc.ID :: (launchAllocs (knownAlloc ++ [alloc.ID]) allocs).2)
    else launchAllocs knownAlloc allocs

/-- One iteration of the `job:` loop of `monitorJob`. -/
def jobCycle (d : Dispatcher) (s : JobVars) (p : JobPoll) : Cycle JobVars :=
  match firstError [p.jobErr, p.allocsErr] with
  | some i =>
    if s.retry < d.jobRetry then
      ⟨{ s with retry := s.retry + 1 }, [Action.logError i], none⟩
    else
      ⟨s, [Action.logError i], some (Exit.error (jobRetryError d))⟩
  | none =>
    let stateLog :=
      if s.saveState ≠ p.job.Status then
        [Action.logInfo ("Job state: " ++ s.saveState ++ " => " ++ p.job.Status)]
      else []
    if p.job.Status = "dead" then
      ⟨{ s with retry := 0, saveState := p.job.Status }, stateLog, some Exit.ok⟩
    else
      ⟨{ retry := 0, saveState := p.job.Status,
         knownAlloc := (launchAllocs s.knownAlloc p.allocs).1 },
        stateLog ++ (launchAllocs s.knownAlloc p.allocs).2, none⟩

/-- Go `func (d Dispatcher) monitorJob(c, ID, g) error`, run on the poll responses
`polls`. -/
def monitorJob (d : Dispatcher) (polls : List JobPoll) : Run JobVars :=
  forLoop (jobCycle d) { retry := 0, knownAlloc := [], saveState := "none" } polls

/-! ## `monitorAlloc` -/

/-- What one cycle of `monitorAlloc` gets from `c.Allocations().Info(allocID, ...)`. -/
structure AllocPoll where
  a : Allocation
  err : Option String
  deriving DecidableEq, Repr

/-- Local variables of `monitorAlloc`; `ts` is the Go `map[string]state`. -/
structure AllocVars where
  retry : Int
  ts : String → Option state

/-- The message of `fmt.Errorf("cannot get allocation info in %d retries", d.allocRetry)`. -/
def allocRetryError (d : Dispatcher) : String :=
  "cannot get allocation info in " ++ toString d.allocRetry ++ " retries"

/-- The loop `for i, e := range task.Events { if i >= cts.Events { log ... } }`, started
at index `i`. -/
def logEvents (taskN : String) (stored : Nat) : Nat → List TaskEvent → List Action
  | _, [] => []
  | i, e :: events =>
    (if i ≥ stored then [Action.taskEvent taskN e] else [])
      ++ logEvents taskN stored (i + 1) events

/-- The `cts, ok := ts[taskN]; if !ok { cts.State = "none" }` lookup. -/
def lookupState (ts : String → Option state) (taskN : String) : state :=
  match ts taskN with
  | some cts => cts
  | none => { State := "none", Events := 0 }

/-- The body of `for taskN, task := range a.TaskStates` for one task. -/
def taskCycle (ts : String → Option state) (taskN : String) (task : TaskState) :
    (String → Option state) × List Action :=
  let cts := lookupState ts taskN
  let stateLog :=
    if cts.State ≠ task.State then
      Action.logDebug ("Task state: " ++ cts.State ++ " => " ++ task.State) ::
        (if task.State = "running" then
          [Action.goMonitorLog taskN "stdout" "STDOUT:",
           Action.goMonitorLog taskN "stderr" "STDERR:"]
        else [])
    else []
  (fun k => if k = taskN then some { State := task.State, Events := task.Events.length }
            else ts k,
    stateLog ++ logEvents taskN cts.Events 0 task.Events)

/-- The loop `for taskN, task := range a.TaskStates { ... }`. -/
def inspectTasks : (String → Option state) → List (String × TaskState) →
    (String → Option state) × List Action
  | ts, [] => (ts, [])
  | ts, (taskN, task) :: tasks =>
    ((inspectTasks (taskCycle ts taskN task).1 tasks).1,
      (taskCycle ts taskN task).2 ++ (inspectTasks (taskCycle ts taskN task).1 tasks).2)

/-- One iteration of the loop of `monitorAlloc`. -/
def allocCycle (d : Dispatcher) (s : AllocVars) (p : AllocPoll) : Cycle AllocVars :=
  match p.err with
  | some err =>
    if s.retry < d.allocRetry then
      ⟨{ s with retry := s.retry + 1 }, [Action.logError err], none⟩
    else
      ⟨s, [Action.logError err], some (Exit.error (allocRetryError d))⟩
  | none =>
    if p.a.ClientStatus = AllocClientStatusComplete then
      ⟨{ s with retry := 0 }, [Action.logInfo "allocation completed"], some Exit.ok⟩
    else if p.a.ClientStatus = AllocClientStatusFailed
        ∨ p.a.ClientStatus = AllocClientStatusLost then
      if p.a.RescheduleInfo.2 > p.a.RescheduleInfo.1 then
        ⟨{ s with retry := 0 },
          [Action.logWarn ("allocation " ++ p.a.ClientStatus),
           Action.logInfo ("reschedule attempt " ++ toString p.a.RescheduleInfo.1 ++ " of "
             ++ toString p.a.RescheduleInfo.2)],
          some Exit.ok⟩
      else
        ⟨{ s with retry := 0 }, [Action.logWarn ("allocation " ++ p.a.ClientStatus)],
          some (Exit.error "no reschedule attempts left")⟩
    else
      ⟨{ retry := 0, ts := (inspectTasks s.ts p.a.TaskStates).1 },
        (inspectTasks s.ts p.a.TaskStates).2, none⟩

/-- The `for { ... }` loop of `monitorAlloc`, from the initial `retry` and `ts`. -/
def monitorAllocLoop (d : Dispatcher) (polls : List AllocPoll) : Run AllocVars :=
  forLoop (allocCycle d) { retry := 0, ts := fun _ => none } polls

/-- Go `func (d Dispatcher) monitorAlloc(c, log, allocID, g) error`, run on the poll
responses `polls`.  `defer close(cancel)` runs when, and only when, the function
returns. -/
def monitorAlloc (d : Dispatcher) (polls : List AllocPoll) : Run AllocVars :=
  match (monitorAllocLoop d polls).result with
  | some r =>
    { monitorAllocLoop d polls with
      trace := (monitorAllocLoop d polls).trace ++ [Action.closeCancel], result := some r }
  | none => monitorAllocLoop d polls

/-! ## `monitorLog` -/

/-- What the `select` of `monitorLog` receives on one round. -/
inductive Recv where
  /-- Is `case l := <-c`; `none` is the nil `*api.StreamFrame` that a receive from a
  closed frame feed yields. -/
  | frame (l : Option StreamFrame)
  /-- Is `case err := <-cErr`; `none` is the nil `error` that a receive from a closed
  error feed yields. -/
  | err (e : Option String)
  /-- Is `case _, ok := <-cancel`; `ok = false` when the signal is closed. -/
  | cancel (ok : Bool)
  deriving DecidableEq, Repr

/-- How far `monitorLog` got. -/
inductive LogExit where
  /-- Still blocked in `select`. -/
  | waiting
  /-- Executed `return`. -/
  | returned
  /-- Run-time fault: nil pointer dereference / method call on a nil interface. -/
  | fault
  deriving DecidableEq, Repr

/-- Go `func monitorLog(label, c, cErr, cancel, log)`, run on the receives `evs`:
the actions performed, how it ended, and how many receives it consumed. -/
def monitorLog (label : String) : List Recv → List Action × LogExit × Nat
  | [] => ([], LogExit.waiting, 0)
  | Recv.frame (some l) :: evs =>
    (Action.print (label ++ "" ++ l.Data) :: (monitorLog label evs).1,
      (monitorLog label evs).2.1, (monitorLog label evs).2.2 + 1)
  | Recv.frame none :: _ => ([], LogExit.fault, 1)
  | Recv.err (some e) :: evs =>
    (Action.logWarn e :: (monitorLog label evs).1,
      (monitorLog label evs).2.1, (monitorLog label evs).2.2 + 1)
  | Recv.err none :: _ => ([], LogExit.fault, 1)
  | Recv.cancel true :: evs =>
    ((monitorLog label evs).1, (monitorLog label evs).2.1, (monitorLog label evs).2.2 + 1)
  | Recv.cancel false :: _ => ([Action.logDebug "stop log stream"], LogExit.returned, 1)

/-! ## Vocabulary of the properties -/

/-- A cycle of `monitorJob` is a poll failure when either fetch returned an error. -/
def JobPoll.failed (p : JobPoll) : Bool := p.jobErr.isSome || p.allocsErr.isSome

/-- A cycle of `monitorAlloc` is a poll failure when the fetch returned an error. -/
def AllocPoll.failed (p : AllocPoll) : Bool := p.err.isSome

/-- Length of the unbroken run of failures that ends at the last entry of a list of
poll outcomes (`true` = failure); `0` when the list is empty or ends in a success. -/
def failureRun (outcomes : List Bool) : Nat := (outcomes.reverse.takeWhile id).length

/-- The allocation ID of a watcher launch (`none` for any other action). -/
def Action.launched : Action → Option String
  | Action.goMonitorAlloc allocID => some allocID
  | _ => none

/-- The allocation IDs for which `monitorAlloc` was launched, in launch order. -/
def launches (trace : List Action) : List String := trace.filterMap Action.launched

/-- A cycle of `monitorJob` reaches the launch loop when both fetches succeeded and the
job status is not `dead`. -/
def JobPoll.reachesLaunch (p : JobPoll) : Bool := !p.failed && p.job.Status != "dead"

/-- The cycles, among those `monitorJob` performed, that reached the launch loop. -/
def launchCycles (d : Dispatcher) (polls : List JobPoll) : List JobPoll :=
  (polls.take (monitorJob d polls).polls).filter JobPoll.reachesLaunch

/-- A cycle of `monitorAlloc` inspects the tasks when the fetch succeeded and the client
status is none of `complete`, `failed`, `lost`. -/
def AllocPoll.inspected (p : AllocPoll) : Bool :=
  !p.failed && p.a.ClientStatus != AllocClientStatusComplete
    && p.a.ClientStatus != AllocClientStatusFailed
    && p.a.ClientStatus != AllocClientStatusLost

/-- The allocations, among the cycles `monitorAlloc` performed, whose tasks it
inspected, in order. -/
def inspectedCycles (d : Dispatcher) (polls : List AllocPoll) : List Allocation :=
  ((polls.take (monitorAlloc d polls).polls).filter AllocPoll.inspected).map AllocPoll.a

/-- The entries of task `taskN` in one task map, in the order visited. -/
def taskEntries (taskN : String) (tasks : List (String × TaskState)) : List TaskState :=
  (tasks.filter (fun e => e.1 = taskN)).map Prod.snd

/-- What the inspected cycles reported for task `taskN`, in order. -/
def taskObs (taskN : String) (cycles : List Allocation) : List TaskState :=
  cycles.flatMap (fun a => taskEntries taskN a.TaskStates)

/-- Number of observations in which the stored state differs from `running` and the
reported state is `running`; the stored state is `stored` at first and the previously
reported state afterwards. -/
def runningEntries : String → List String → Nat
  | _, [] => 0
  | stored, reported :: rest =>
    (if stored ≠ "running" ∧ reported = "running" then 1 else 0)
      + runningEntries reported rest

/-- The event of a task-event action of task `taskN` (`none` for any other action). -/
def Action.event (taskN : String) : Action → Option TaskEvent
  | Action.taskEvent t e => if t = taskN then some e else none
  | _ => none

/-- The events of task `taskN` that were logged, in order. -/
def emitted (taskN : String) (trace : List Action) : List TaskEvent :=
  trace.filterMap (Action.event taskN)

/-- Whether an action is a log-stream start or an event line of task `taskN`. -/
def Action.ofTask (taskN : String) : Action → Bool
  | Action.goMonitorLog t _ _ => t = taskN
  | Action.taskEvent t _ => t = taskN
  | _ => false

/-! ## Per-task view of `monitorAlloc` and the retry discipline -/

/-- The actions of task `taskN` in one pass of the task loop body, from the stored
`cts` and the reported `task`. -/
def taskActs (taskN : String) (cts : state) (task : TaskState) : List Action :=
  (if cts.State ≠ task.State ∧ task.State = "running" then
      [Action.goMonitorLog taskN "stdout" "STDOUT:",
       Action.goMonitorLog taskN "stderr" "STDERR:"]
    else [])
    ++ (task.Events.drop cts.Events).map (Action.taskEvent taskN)

/-- The actions of task `taskN` over a sequence of observations. -/
def taskTrace (taskN : String) : state → List TaskState → List Action
  | _, [] => []
  | cts, task :: rest =>
    taskActs taskN cts task
      ++ taskTrace taskN { State := task.State, Events := task.Events.length } rest

/-- The stored state of a task after a sequence of observations. -/
def storedAfter : state → List TaskState → state
  | cts, [] => cts
  | _, task :: rest => storedAfter { State := task.State, Events := task.Events.length } rest

/-- What task `taskN` is reported as by one cycle. -/
def cycleObs (taskN : String) (p : AllocPoll) : List TaskState :=
  if p.inspected = true then taskEntries taskN p.a.TaskStates else []

/-- The retry discipline shared by the two pollers: a failed poll below the ceiling
adds one to the counter and goes round again, a failed poll at the ceiling returns the
exhaustion error `E`, and a successful poll zeroes the counter, never returns `E` and
does not read the counter. -/
structure RetryLoop {σ π : Type} (body : σ → π → Cycle σ) (retryOf : σ → Int)
    (setRetry : σ → Int → σ) (failed : π → Bool) (N : Int) (E : Exit) : Prop where
  fail_below : ∀ s p, failed p = true → retryOf s < N →
    (body s p).exit = none ∧ (body s p).st = setRetry s (retryOf s + 1)
  fail_at : ∀ s p, failed p = true → ¬ retryOf s < N → (body s p).exit = some E
  ok_exit : ∀ s p, failed p = false → (body s p).exit ≠ some E
  ok_retry : ∀ s p, failed p = false → retryOf (body s p).st = 0
  ok_indep : ∀ s p r, failed p = false → body (setRetry s r) p = body s p
  get_set : ∀ s r, retryOf (setRetry s r) = r
  set_set : ∀ s a b, setRetry (setRetry s a) b = setRetry s b

/-! ## Sample responses -/

/-- A cycle of `monitorJob` in which both fetches succeed. -/
def jobOk (status : String) (ids : List String) : JobPoll :=
  ⟨⟨status⟩, none, ids.map AllocationListStub.mk, none⟩

/-- A cycle of `monitorJob` in which the job-info fetch fails. -/
def jobInfoFails (msg : String) : JobPoll := ⟨⟨""⟩, some msg, [], none⟩

/-- A cycle of `monitorJob` in which the job-info fetch succeeds and reports `status`
while the allocation-list fetch fails. -/
def jobListFails (status msg : String) : JobPoll := ⟨⟨status⟩, none, [], some msg⟩

/-- A cycle of `monitorAlloc` in which the fetch succeeds. -/
def allocOk (status : String) (resched : Int × Int) (tasks : List (String × TaskState)) :
    AllocPoll :=
  ⟨⟨status, resched, tasks⟩, none⟩

/-- A cycle of `monitorAlloc` in which the fetch fails. -/
def allocFails (msg : String) : AllocPoll := ⟨⟨"", (0, 0), []⟩, some msg⟩

/-- A task event with the given message. -/
def ev (msg : String) : TaskEvent := ⟨"Event", msg⟩

/-! ## The generic loop -/

theorem forLoop_cons_some {σ π : Type} (body : σ → π → Cycle σ) (s : σ) (p : π)
    (ps : List π) (r : Exit) (h : (body s p).exit = some r) :
    forLoop body s (p :: ps) = ⟨(body s p).st, (body s p).acts, 1, some r⟩ := by
  simp [forLoop, h]

theorem forLoop_cons_none {σ π : Type} (body : σ → π → Cycle σ) (s : σ) (p : π)
    (ps : List π) (h : (body s p).exit = none) :
    forLoop body s (p :: ps) =
      ⟨(forLoop body (body s p).st ps).st,
        (body s p).acts ++ (forLoop body (body s p).st ps).trace,
        (forLoop body (body s p).st ps).polls + 1,
        (forLoop body (body s p).st ps).result⟩ := by
  simp [forLoop, h]

theorem forLoop_polls_le {σ π : Type} (body : σ → π → Cycle σ) (s : σ) (ps : List π) :
    (forLoop body s ps).polls ≤ ps.length := by
  induction ps generalizing s with
  | nil => simp [forLoop]
  | cons p ps ih =>
    cases h : (body s p).exit with
    | some r => rw [forLoop_cons_some body s p ps r h]; simp
    | none =>
      rw [forLoop_cons_none body s p ps h]
      have := ih (body s p).st
      simp only [List.length_cons]; omega

theorem forLoop_polls_of_running {σ π : Type} (body : σ → π → Cycle σ) (s : σ)
    (ps : List π) (h : (forLoop body s ps).result = none) :
    (forLoop body s ps).polls = ps.length := by
  induction ps generalizing s with
  | nil => simp [forLoop]
  | cons p ps ih =>
    cases hx : (body s p).exit with
    | some r => rw [forLoop_cons_some body s p ps r hx] at h; simp at h
    | none =>
      rw [forLoop_cons_none body s p ps hx] at h ⊢
      simp only [List.length_cons, add_left_inj]
      exact ih _ h

theorem forLoop_polls_pos_of_returned {σ π : Type} (body : σ → π → Cycle σ) (s : σ)
    (ps : List π) (r : Exit) (h : (forLoop body s ps).result = some r) :
    0 < (forLoop body s ps).polls := by
  cases ps with
  | nil => simp [forLoop] at h
  | cons p ps =>
    cases hx : (body s p).exit with
    | some r => rw [forLoop_cons_some body s p ps r hx]; simp
    | none => rw [forLoop_cons_none body s p ps hx]; simp

/-- Once the function has returned, later responses are never looked at. -/
theorem forLoop_append_of_returned {σ π : Type} (body : σ → π → Cycle σ) (s : σ)
    (xs ys : List π) (r : Exit) (h : (forLoop body s xs).result = some r) :
    forLoop body s (xs ++ ys) = forLoop body s xs := by
  induction xs generalizing s with
  | nil => simp [forLoop] at h
  | cons p ps ih =>
    cases hx : (body s p).exit with
    | some r =>
      rw [List.cons_append, forLoop_cons_some body s p _ r hx,
        forLoop_cons_some body s p _ r hx]
    | none =>
      rw [forLoop_cons_none body s p ps hx] at h
      rw [List.cons_append, forLoop_cons_none body s p _ hx, forLoop_cons_none body s p _ hx,
        ih _ h]

/-- While the loop is running, it continues from its current variables. -/
theorem forLoop_append_of_running {σ π : Type} (body : σ → π → Cycle σ) (s : σ)
    (xs ys : List π) (h : (forLoop body s xs).result = none) :
    forLoop body s (xs ++ ys) =
      ⟨(forLoop body (forLoop body s xs).st ys).st,
        (forLoop body s xs).trace ++ (forLoop body (forLoop body s xs).st ys).trace,
        xs.length + (forLoop body (forLoop body s xs).st ys).polls,
        (forLoop body (forLoop body s xs).st ys).result⟩ := by
  induction xs generalizing s with
  | nil => simp [forLoop]
  | cons p ps ih =>
    cases hx : (body s p).exit with
    | some r => rw [forLoop_cons_some body s p ps r hx] at h; simp at h
    | none =>
      rw [forLoop_cons_none body s p ps hx] at h
      rw [List.cons_append, forLoop_cons_none body s p _ hx, ih _ h,
        forLoop_cons_none body s p _ hx]
      simp only [List.append_assoc, List.length_cons, Run.mk.injEq, true_and]
      exact ⟨by omega, trivial⟩

/-- A loop that is running after some responses was running after fewer of them. -/
theorem forLoop_running_of_append {σ π : Type} (body : σ → π → Cycle σ) (s : σ)
    (xs ys : List π) (h : (forLoop body s (xs ++ ys)).result = none) :
    (forLoop body s xs).result = none := by
  cases hx : (forLoop body s xs).result with
  | none => rfl
  | some r => rw [forLoop_append_of_returned body s xs ys r hx, hx] at h; simp at h

/-- The responses beyond the number of polls performed do not matter. -/
theorem forLoop_take_polls {σ π : Type} (body : σ → π → Cycle σ) (s : σ) (ps : List π) :
    forLoop body s (ps.take (forLoop body s ps).polls) = forLoop body s ps := by
  induction ps generalizing s with
  | nil => simp [forLoop]
  | cons p ps ih =>
    cases hx : (body s p).exit with
    | some r =>
      rw [forLoop_cons_some body s p ps r hx]
      simp [forLoop_cons_some body s p _ r hx]
    | none =>
      rw [forLoop_cons_none body s p ps hx]
      simp only [List.take_succ_cons]
      rw [forLoop_cons_none body s p _ hx, ih]

theorem failureRun_nil : failureRun [] = 0 := rfl

theorem failureRun_append_singleton (l : List Bool) (b : Bool) :
    failureRun (l ++ [b]) = if b then failureRun l + 1 else 0 := by
  cases b <;> simp [failureRun, List.takeWhile_cons]

/-- The effect of one more response on a running loop. -/
theorem forLoop_snoc {σ π : Type} (body : σ → π → Cycle σ) (s : σ) (xs : List π) (p : π)
    (h : (forLoop body s xs).result = none) :
    forLoop body s (xs ++ [p]) =
      ⟨(body (forLoop body s xs).st p).st,
        (forLoop body s xs).trace ++ (body (forLoop body s xs).st p).acts,
        xs.length + 1,
        (body (forLoop body s xs).st p).exit⟩ := by
  rw [forLoop_append_of_running body s xs [p] h]
  cases hx : (body (forLoop body s xs).st p).exit with
  | some r => rw [forLoop_cons_some body _ p [] r hx]
  | none => rw [forLoop_cons_none body _ p [] hx]; simp [forLoop]

/-- When the function returned at poll `k + 1`, it was running after `k` polls. -/
theorem forLoop_running_before {σ π : Type} (body : σ → π → Cycle σ) (s : σ)
    (ps : List π) (k : Nat) (h : (forLoop body s ps).polls = k + 1) :
    (forLoop body s (ps.take k)).result = none := by
  cases hx : (forLoop body s (ps.take k)).result with
  | none => rfl
  | some r =>
    have h1 := forLoop_append_of_returned body s (ps.take k) (ps.drop k) r hx
    rw [List.take_append_drop] at h1
    have h2 := forLoop_polls_le body s (ps.take k)
    rw [← h1, h] at h2
    simp only [List.length_take] at h2
    omega

section RetryLoop

variable {σ π : Type} {body : σ → π → Cycle σ} {retryOf : σ → Int}
  {setRetry : σ → Int → σ} {failed : π → Bool} {N : Int} {E : Exit}

/-- While the loop runs, the counter is the length of the current run of failures,
and it is at most the ceiling. -/
theorem RetryLoop.retry_eq (H : RetryLoop body retryOf setRetry failed N E) (hN : 0 ≤ N)
    (s : σ) (hs : retryOf s = 0) (ps : List π) (h : (forLoop body s ps).result = none) :
    retryOf (forLoop body s ps).st = (failureRun (ps.map failed) : Int) ∧
      retryOf (forLoop body s ps).st ≤ N := by
  induction ps using List.reverseRecOn with
  | nil => simp [forLoop, hs, failureRun_nil, hN]
  | append_singleton xs p ih =>
    have hx := forLoop_running_of_append body s xs [p] h
    obtain ⟨ih1, ih2⟩ := ih hx
    rw [forLoop_snoc body s xs p hx] at h ⊢
    simp only at h ⊢
    rw [List.map_append, List.map_singleton, failureRun_append_singleton]
    cases hp : failed p with
    | true =>
      by_cases hlt : retryOf (forLoop body s xs).st < N
      · rw [(H.fail_below _ p hp hlt).2, H.get_set, ih1]
        constructor
        · simp
        · omega
      · rw [H.fail_at _ p hp hlt] at h
        simp at h
    | false =>
      rw [H.ok_retry _ p hp]
      simp [hN]

/-- The counter equals the current run of failures whatever the ceiling is. -/
theorem RetryLoop.retry_run (H : RetryLoop body retryOf setRetry failed N E)
    (s : σ) (hs : retryOf s = 0) (ps : List π) (h : (forLoop body s ps).result = none) :
    retryOf (forLoop body s ps).st = (failureRun (ps.map failed) : Int) := by
  induction ps using List.reverseRecOn with
  | nil => simp [forLoop, hs, failureRun_nil]
  | append_singleton xs p ih =>
    have hx := forLoop_running_of_append body s xs [p] h
    have ih1 := ih hx
    rw [forLoop_snoc body s xs p hx] at h ⊢
    simp only at h ⊢
    rw [List.map_append, List.map_singleton, failureRun_append_singleton]
    cases hp : failed p with
    | true =>
      by_cases hlt : retryOf (forLoop body s xs).st < N
      · rw [(H.fail_below _ p hp hlt).2, H.get_set, ih1]
        simp
      · rw [H.fail_at _ p hp hlt] at h
        simp at h
    | false =>
      rw [H.ok_retry _ p hp]
      simp

/-- The exhaustion error is returned at poll `k + 1` exactly when the loop was still
running after `k` polls and poll `k + 1` completes a run of `N + 1` failures. -/
theorem RetryLoop.exhausted_iff (H : RetryLoop body retryOf setRetry failed N E)
    (hN : 0 ≤ N) (s : σ) (hs : retryOf s = 0) (ps : List π) (k : Nat) :
    ((forLoop body s ps).result = some E ∧ (forLoop body s ps).polls = k + 1) ↔
      (k < ps.length ∧ (forLoop body s (ps.take k)).result = none ∧
        (failureRun ((ps.take (k + 1)).map failed) : Int) = N + 1) := by
  constructor
  · rintro ⟨hr, hk⟩
    have hlen : k < ps.length := by
      have := forLoop_polls_le body s ps
      omega
    have hrun := forLoop_running_before body s ps k hk
    refine ⟨hlen, hrun, ?_⟩
    have htake : ps.take (k + 1) = ps.take k ++ [ps[k]] := by
      rw [List.take_succ, List.getElem?_eq_getElem hlen]; rfl
    have h1 := forLoop_take_polls body s ps
    rw [hk, htake, forLoop_snoc body s _ _ hrun] at h1
    have h2 : (body (forLoop body s (ps.take k)).st ps[k]).exit = some E := by
      rw [← hr, ← h1]
    obtain ⟨e1, e2⟩ := H.retry_eq hN s hs (ps.take k) hrun
    rw [htake, List.map_append, List.map_singleton, failureRun_append_singleton]
    cases hp : failed ps[k] with
    | true =>
      by_cases hlt : retryOf (forLoop body s (ps.take k)).st < N
      · rw [(H.fail_below _ _ hp hlt).1] at h2
        simp at h2
      · simp only [if_true, Nat.cast_add, Nat.cast_one, add_left_inj]
        omega
    | false => exact absurd h2 (H.ok_exit _ _ hp)
  · rintro ⟨hlen, hrun, hf⟩
    have htake : ps.take (k + 1) = ps.take k ++ [ps[k]] := by
      rw [List.take_succ, List.getElem?_eq_getElem hlen]; rfl
    obtain ⟨e1, e2⟩ := H.retry_eq hN s hs (ps.take k) hrun
    rw [htake, List.map_append, List.map_singleton, failureRun_append_singleton] at hf
    cases hp : failed ps[k] with
    | false => rw [hp] at hf; simp at hf; omega
    | true =>
      rw [hp] at hf
      simp only [if_true, Nat.cast_add, Nat.cast_one, add_left_inj] at hf
      have hge : ¬ retryOf (forLoop body s (ps.take k)).st < N := by omega
      have hex := H.fail_at _ _ hp hge
      have h1 : (forLoop body s (ps.take (k + 1))).result = some E := by
        rw [htake, forLoop_snoc body s _ _ hrun]; exact hex
      have h2 : (forLoop body s (ps.take (k + 1))).polls = k + 1 := by
        rw [htake, forLoop_snoc body s _ _ hrun]
        simp only [List.length_take, add_left_inj]
        omega
      have h3 := forLoop_append_of_returned body s (ps.take (k + 1)) (ps.drop (k + 1)) E h1
      rw [List.take_append_drop] at h3
      rw [h3]
      exact ⟨h1, h2⟩

/-- A run of failures that leaves the loop running has only moved the counter. -/
theorem RetryLoop.failures_only_retry (H : RetryLoop body retryOf setRetry failed N E)
    (s : σ) (fs : List π) (hf : ∀ f ∈ fs, failed f = true)
    (h : (forLoop body s fs).result = none) (r : Int) :
    setRetry (forLoop body s fs).st r = setRetry s r := by
  induction fs generalizing s with
  | nil => simp [forLoop]
  | cons f fs ih =>
    have hfail := hf f (List.mem_cons_self _ _)
    by_cases hlt : retryOf s < N
    · obtain ⟨e1, e2⟩ := H.fail_below s f hfail hlt
      rw [forLoop_cons_none body s f fs e1] at h ⊢
      simp only at h ⊢
      rw [ih (body s f).st (fun g hg => hf g (List.mem_cons_of_mem _ hg)) h, e2, H.set_set]
    · have e := H.fail_at s f hfail hlt
      rw [forLoop_cons_some body s f fs E e] at h
      simp at h

/-- Failures that precede a successful poll change nothing from that poll on. -/
theorem RetryLoop.success_forgets (H : RetryLoop body retryOf setRetry failed N E)
    (s : σ) (pre fs : List π) (p : π) (rest : List π)
    (hf : ∀ f ∈ fs, failed f = true) (hp : failed p = false)
    (h : (forLoop body s (pre ++ fs)).result = none) :
    (forLoop body s (pre ++ fs ++ p :: rest)).result =
        (forLoop body s (pre ++ p :: rest)).result ∧
      (forLoop body s (pre ++ fs ++ p :: rest)).st =
        (forLoop body s (pre ++ p :: rest)).st := by
  have hpre := forLoop_running_of_append body s pre fs h
  rw [forLoop_append_of_running body s pre fs hpre] at h
  simp only at h
  have hset := H.failures_only_retry (forLoop body s pre).st fs hf h
  have hbody : body (forLoop body (forLoop body s pre).st fs).st p
      = body (forLoop body s pre).st p := by
    rw [← H.ok_indep (forLoop body (forLoop body s pre).st fs).st p 0 hp, hset 0,
      H.ok_indep _ p 0 hp]
  have hloop : forLoop body (forLoop body (forLoop body s pre).st fs).st (p :: rest)
      = forLoop body (forLoop body s pre).st (p :: rest) := by
    cases hx : (body (forLoop body s pre).st p).exit with
    | some r =>
      rw [forLoop_cons_some body _ p rest r hx, forLoop_cons_some body _ p rest r (hbody ▸ hx),
        hbody]
    | none =>
      rw [forLoop_cons_none body _ p rest hx, forLoop_cons_none body _ p rest (hbody ▸ hx),
        hbody]
  rw [List.append_assoc, forLoop_append_of_running body s pre (fs ++ p :: rest) hpre,
    forLoop_append_of_running body s pre (p :: rest) hpre,
    forLoop_append_of_running body _ fs (p :: rest) h, hloop]
  exact ⟨rfl, rfl⟩

end RetryLoop

/-! ## The retry discipline of `monitorJob` and `monitorAlloc` -/

theorem firstError_of_failed (p : JobPoll) (h : p.failed = true) :
    ∃ i, firstError [p.jobErr, p.allocsErr] = some i := by
  rcases p with ⟨job, jobErr, allocs, allocsErr⟩
  cases jobErr <;> cases allocsErr <;> simp_all [JobPoll.failed, firstError]

theorem firstError_of_not_failed (p : JobPoll) (h : p.failed = false) :
    firstError [p.jobErr, p.allocsErr] = none := by
  rcases p with ⟨job, jobErr, allocs, allocsErr⟩
  cases jobErr <;> cases allocsErr <;> simp_all [JobPoll.failed, firstError]

theorem jobRetryLoop (d : Dispatcher) :
    RetryLoop (jobCycle d) (fun s => s.retry) (fun s r => { s with retry := r })
      JobPoll.failed d.jobRetry (Exit.error (jobRetryError d)) where
  fail_below := by
    intro s p hp hlt
    obtain ⟨i, hi⟩ := firstError_of_failed p hp
    simp only [jobCycle, hi]
    rw [if_pos hlt]
    exact ⟨rfl, rfl⟩
  fail_at := by
    intro s p hp hlt
    obtain ⟨i, hi⟩ := firstError_of_failed p hp
    simp only [jobCycle, hi]
    rw [if_neg hlt]
  ok_exit := by
    intro s p hp
    simp only [jobCycle, firstError_of_not_failed p hp]
    split <;> simp
  ok_retry := by
    intro s p hp
    simp only [jobCycle, firstError_of_not_failed p hp]
    split <;> rfl
  ok_indep := by
    intro s p r hp
    simp only [jobCycle, firstError_of_not_failed p hp]
  get_set := by intro s r; rfl
  set_set := by intro s a b; rfl

theorem allocRetryError_ne (d : Dispatcher) :
    allocRetryError d ≠ "no reschedule attempts left" := by
  intro h
  have h1 := congrArg String.data h
  simp [allocRetryError, String.data_append] at h1

theorem allocRetryLoop (d : Dispatcher) :
    RetryLoop (allocCycle d) (fun s => s.retry) (fun s r => { s with retry := r })
      AllocPoll.failed d.allocRetry (Exit.error (allocRetryError d)) where
  fail_below := by
    intro s p hp hlt
    rcases p with ⟨a, err⟩
    cases err with
    | none => simp [AllocPoll.failed] at hp
    | some e =>
      simp only [allocCycle]
      rw [if_pos hlt]
      exact ⟨rfl, rfl⟩
  fail_at := by
    intro s p hp hlt
    rcases p with ⟨a, err⟩
    cases err with
    | none => simp [AllocPoll.failed] at hp
    | some e =>
      simp only [allocCycle]
      rw [if_neg hlt]
  ok_exit := by
    intro s p hp
    rcases p with ⟨a, err⟩
    cases err with
    | some e => simp [AllocPoll.failed] at hp
    | none =>
      simp only [allocCycle]
      split
      · simp
      · split
        · split
          · simp
          · simp only [ne_eq, Option.some.injEq, Exit.error.injEq]
            exact fun h => allocRetryError_ne d h.symm
        · simp
  ok_retry := by
    intro s p hp
    rcases p with ⟨a, err⟩
    cases err with
    | some e => simp [AllocPoll.failed] at hp
    | none =>
      simp only [allocCycle]
      split
      · rfl
      · split
        · split <;> rfl
        · rfl
  ok_indep := by
    intro s p r hp
    rcases p with ⟨a, err⟩
    cases err with
    | some e => simp [AllocPoll.failed] at hp
    | none => simp only [allocCycle]
  get_set := by intro s r; rfl
  set_set := by intro s a b; rfl

theorem monitorAlloc_result (d : Dispatcher) (polls : List AllocPoll) :
    (monitorAlloc d polls).result = (monitorAllocLoop d polls).result := by
  unfold monitorAlloc
  split <;> simp_all

theorem monitorAlloc_polls (d : Dispatcher) (polls : List AllocPoll) :
    (monitorAlloc d polls).polls = (monitorAllocLoop d polls).polls := by
  unfold monitorAlloc
  split <;> rfl

theorem monitorAlloc_st (d : Dispatcher) (polls : List AllocPoll) :
    (monitorAlloc d polls).st = (monitorAllocLoop d polls).st := by
  unfold monitorAlloc
  split <;> rfl

/-- C1. With a ceiling `N ≥ 0`, for every sequence of poll outcomes, `monitorJob`
(`N = jobRetry`) and `monitorAlloc` (`N = allocRetry`) return their retry-exhausted
error at poll `k + 1` if and only if the watcher was still running after `k` polls and
poll `k + 1` is the `(N + 1)`th failure of an unbroken run of failures: never after `N`
or fewer consecutive failures, and never later.  While the watcher runs, its counter
is the length of the run of failures ending at the last poll, so a successful poll
puts it back to zero; and failures that precede a successful poll have no effect on
the result or the variables from that poll on. -/
theorem retry_exhaustion_exact (d : Dispatcher) (hj : 0 ≤ d.jobRetry)
    (ha : 0 ≤ d.allocRetry) :
    (∀ (polls : List JobPoll) (k : Nat),
      ((monitorJob d polls).result = some (Exit.error (jobRetryError d)) ∧
          (monitorJob d polls).polls = k + 1) ↔
        (k < polls.length ∧ (monitorJob d (polls.take k)).result = none ∧
          (failureRun ((polls.take (k + 1)).map JobPoll.failed) : Int) = d.jobRetry + 1)) ∧
    (∀ polls : List JobPoll, (monitorJob d polls).result = none →
      (monitorJob d polls).st.retry = (failureRun (polls.map JobPoll.failed) : Int)) ∧
    (∀ (pre fs : List JobPoll) (p : JobPoll) (rest : List JobPoll),
      (∀ f ∈ fs, f.failed = true) → p.failed = false →
      (monitorJob d (pre ++ fs)).result = none →
        (monitorJob d (pre ++ fs ++ p :: rest)).result
            = (monitorJob d (pre ++ p :: rest)).result ∧
          (monitorJob d (pre ++ fs ++ p :: rest)).st
            = (monitorJob d (pre ++ p :: rest)).st) ∧
    (∀ (polls : List AllocPoll) (k : Nat),
      ((monitorAlloc d polls).result = some (Exit.error (allocRetryError d)) ∧
          (monitorAlloc d polls).polls = k + 1) ↔
        (k < polls.length ∧ (monitorAlloc d (polls.take k)).result = none ∧
          (failureRun ((polls.take (k + 1)).map AllocPoll.failed) : Int)
            = d.allocRetry + 1)) ∧
    (∀ polls : List AllocPoll, (monitorAlloc d polls).result = none →
      (monitorAlloc d polls).st.retry = (failureRun (polls.map AllocPoll.failed) : Int)) ∧
    (∀ (pre fs : List AllocPoll) (p : AllocPoll) (rest : List AllocPoll),
      (∀ f ∈ fs, f.failed = true) → p.failed = false →
      (monitorAlloc d (pre ++ fs)).result = none →
        (monitorAlloc d (pre ++ fs ++ p :: rest)).result
            = (monitorAlloc d (pre ++ p :: rest)).result ∧
          (monitorAlloc d (pre ++ fs ++ p :: rest)).st
            = (monitorAlloc d (pre ++ p :: rest)).st) := by
  refine ⟨?_, ?_, ?_, ?_, ?_, ?_⟩
  · intro polls k
    exact (jobRetryLoop d).exhausted_iff hj _ rfl polls k
  · intro polls h
    exact ((jobRetryLoop d).retry_eq hj _ rfl polls h).1
  · intro pre fs p rest hf hp h
    exact (jobRetryLoop d).success_forgets _ pre fs p rest hf hp h
  · intro polls k
    simp only [monitorAlloc_result, monitorAlloc_polls]
    exact (allocRetryLoop d).exhausted_iff ha _ rfl polls k
  · intro polls h
    simp only [monitorAlloc_result, monitorAlloc_st] at h ⊢
    exact ((allocRetryLoop d).retry_eq ha _ rfl polls h).1
  · intro pre fs p rest hf hp h
    simp only [monitorAlloc_result, monitorAlloc_st] at h ⊢
    exact (allocRetryLoop d).success_forgets _ pre fs p rest hf hp h

/-! ## `monitorJob`: failed cycles and the terminal status -/

/-- C8. In `monitorJob`, a cycle in which the job-info fetch, the allocation-list fetch,
or both fail is one poll failure: only the first error of the cycle is logged, nothing
else is done (no status-transition log, no `dead` check, no watcher launch),
`knownAlloc` and `saveState` keep their values, and the counter goes up by exactly one
when it is below the ceiling (at the ceiling the function returns the exhaustion
error instead). -/
theorem failed_cycle_counts_once (d : Dispatcher) (pre : List JobPoll) (p : JobPoll)
    (hrun : (monitorJob d pre).result = none) (hp : p.failed = true) :
    ∃ i, firstError [p.jobErr, p.allocsErr] = some i ∧
      (monitorJob d (pre ++ [p])).trace = (monitorJob d pre).trace ++ [Action.logError i] ∧
      (monitorJob d (pre ++ [p])).st.knownAlloc = (monitorJob d pre).st.knownAlloc ∧
      (monitorJob d (pre ++ [p])).st.saveState = (monitorJob d pre).st.saveState ∧
      ((monitorJob d pre).st.retry < d.jobRetry →
        (monitorJob d (pre ++ [p])).result = none ∧
        (monitorJob d (pre ++ [p])).st.retry = (monitorJob d pre).st.retry + 1) ∧
      (¬ (monitorJob d pre).st.retry < d.jobRetry →
        (monitorJob d (pre ++ [p])).result = some (Exit.error (jobRetryError d)) ∧
        (monitorJob d (pre ++ [p])).st.retry = (monitorJob d pre).st.retry) := by
  obtain ⟨i, hi⟩ := firstError_of_failed p hp
  refine ⟨i, hi, ?_⟩
  unfold monitorJob at hrun ⊢
  rw [forLoop_snoc _ _ pre p hrun]
  simp only [jobCycle, hi]
  by_cases hlt : (forLoop (jobCycle d) { retry := 0, knownAlloc := [], saveState := "none" }
      pre).st.retry < d.jobRetry
  · simp [hlt]
  · simp [hlt]

/-- Polls before the first successful `dead` poll, without retry exhaustion, leave
`monitorJob` running. -/
theorem monitorJob_running_before_dead (d : Dispatcher) (pre : List JobPoll)
    (hfirst : ∀ q ∈ pre, q.failed = false → q.job.Status ≠ "dead")
    (hno : ∀ j, 0 < failureRun ((pre.take j).map JobPoll.failed) →
      (failureRun ((pre.take j).map JobPoll.failed) : Int) ≤ d.jobRetry) :
    (monitorJob d pre).result = none := by
  induction pre using List.reverseRecOn with
  | nil => rfl
  | append_singleton xs q ih =>
    have hx : (monitorJob d xs).result = none := by
      apply ih
      · intro q' hq'
        exact hfirst q' (List.mem_append_left _ hq')
      · intro j hj
        by_cases hjl : j ≤ xs.length
        · have := hno j
          rw [List.take_append_of_le_length hjl] at this
          exact this hj
        · have e : xs.take j = (xs ++ [q]).take xs.length := by
            rw [List.take_of_length_le (by omega), List.take_left]
          rw [e] at hj ⊢
          exact hno xs.length hj
    have hr := (jobRetryLoop d).retry_run _ rfl xs hx
    unfold monitorJob at hx hr ⊢
    rw [forLoop_snoc _ _ xs q hx]
    simp only
    cases hq : q.failed with
    | true =>
      have h1 := hno (xs.length + 1)
      rw [List.take_of_length_le (by simp), List.map_append, List.map_singleton,
        failureRun_append_singleton, hq] at h1
      simp only [if_true, Nat.cast_add, Nat.cast_one] at h1
      have hlt : (forLoop (jobCycle d) { retry := 0, knownAlloc := [], saveState := "none" }
          xs).st.retry < d.jobRetry := by
        have := h1 (by omega)
        rw [hr]
        omega
      exact ((jobRetryLoop d).fail_below _ q hq hlt).1
    | false =>
      have hnd := hfirst q (by simp) hq
      simp [jobCycle, firstError_of_not_failed q hq, hnd]

/-- C7. For every sequence of job poll results in which no run of consecutive failures
exceeds the ceiling before then, if poll `pre.length + 1` is the first successful poll
that reports status `dead`, `monitorJob` returns nil having performed exactly
`pre.length + 1` polls, whatever responses `rest` would have followed. -/
theorem dead_returns_without_next_poll (d : Dispatcher) (pre : List JobPoll) (p : JobPoll)
    (rest : List JobPoll) (hp : p.failed = false) (hdead : p.job.Status = "dead")
    (hfirst : ∀ q ∈ pre, q.failed = false → q.job.Status ≠ "dead")
    (hno : ∀ j, 0 < failureRun ((pre.take j).map JobPoll.failed) →
      (failureRun ((pre.take j).map JobPoll.failed) : Int) ≤ d.jobRetry) :
    (monitorJob d (pre ++ p :: rest)).result = some Exit.ok ∧
      (monitorJob d (pre ++ p :: rest)).polls = pre.length + 1 := by
  have hrun := monitorJob_running_before_dead d pre hfirst hno
  unfold monitorJob at hrun ⊢
  have h1 : forLoop (jobCycle d) { retry := 0, knownAlloc := [], saveState := "none" }
      (pre ++ [p]) = _ := forLoop_snoc _ _ pre p hrun
  have hex : (jobCycle d (forLoop (jobCycle d)
      { retry := 0, knownAlloc := [], saveState := "none" } pre).st p).exit = some Exit.ok := by
    simp [jobCycle, firstError_of_not_failed p hp, hdead]
  have h2 : (forLoop (jobCycle d) { retry := 0, knownAlloc := [], saveState := "none" }
      (pre ++ [p])).result = some Exit.ok := by
    rw [h1]; exact hex
  have h3 := forLoop_append_of_returned _ _ (pre ++ [p]) rest Exit.ok h2
  rw [List.append_assoc, List.singleton_append] at h3
  rw [h3, h1]
  exact ⟨hex, rfl⟩

/-! ## `monitorJob`: one watcher per allocation ID -/

theorem find_iff (source : List String) (value : String) :
    find source value = true ↔ value ∈ source := by
  induction source with
  | nil => simp [find]
  | cons item source ih =>
    by_cases h : item = value
    · simp [find, h]
    · simp [find, h, ih, Ne.symm h]

theorem count_goMonitorAlloc (trace : List Action) (allocID : String) :
    trace.count (Action.goMonitorAlloc allocID) = (launches trace).count allocID := by
  induction trace with
  | nil => rfl
  | cons a trace ih =>
    cases a <;>
      simp [launches, Action.launched, List.count_cons, List.filterMap_cons] at ih ⊢ <;>
      omega

theorem launches_append (xs ys : List Action) :
    launches (xs ++ ys) = launches xs ++ launches ys := by
  simp [launches, List.filterMap_append]

theorem launchAllocs_known (knownAlloc : List String) (allocs : List AllocationListStub) :
    (launchAllocs knownAlloc allocs).1
      = knownAlloc ++ launches (launchAllocs knownAlloc allocs).2 := by
  induction allocs generalizing knownAlloc with
  | nil => simp [launchAllocs, launches]
  | cons alloc allocs ih =>
    by_cases h : find knownAlloc alloc.ID = true
    · simp only [launchAllocs, h, Bool.not_true, Bool.false_eq_true, if_false]
      exact ih knownAlloc
    · simp only [launchAllocs, h, Bool.not_false, if_true]
      rw [ih (knownAlloc ++ [alloc.ID])]
      simp [launches, Action.launched, List.filterMap_cons]

theorem launchAllocs_nodup (knownAlloc : List String) (allocs : List AllocationListStub)
    (h : knownAlloc.Nodup) : (launchAllocs knownAlloc allocs).1.Nodup := by
  induction allocs generalizing knownAlloc with
  | nil => simpa [launchAllocs] using h
  | cons alloc allocs ih =>
    by_cases hf : find knownAlloc alloc.ID = true
    · simp only [launchAllocs, hf, Bool.not_true, Bool.false_eq_true, if_false]
      exact ih knownAlloc h
    · simp only [launchAllocs, hf, Bool.not_false, if_true]
      apply ih
      rw [find_iff] at hf
      rw [List.nodup_append]
      refine ⟨h, List.nodup_singleton _, ?_⟩
      intro a ha hb
      rw [List.mem_singleton] at hb
      exact hf (hb ▸ ha)

theorem launchAllocs_mem (knownAlloc : List String) (allocs : List AllocationListStub)
    (allocID : String) :
    allocID ∈ (launchAllocs knownAlloc allocs).1
      ↔ allocID ∈ knownAlloc ∨ allocID ∈ allocs.map AllocationListStub.ID := by
  induction allocs generalizing knownAlloc with
  | nil => simp [launchAllocs]
  | cons alloc allocs ih =>
    by_cases hf : find knownAlloc alloc.ID = true
    · simp only [launchAllocs, hf, Bool.not_true, Bool.false_eq_true, if_false]
      rw [ih knownAlloc, List.map_cons, List.mem_cons]
      rw [find_iff] at hf
      constructor
      · rintro (h | h)
        · exact Or.inl h
        · exact Or.inr (Or.inr h)
      · rintro (h | h | h)
        · exact Or.inl h
        · exact Or.inl (h ▸ hf)
        · exact Or.inr h
    · simp only [launchAllocs, hf, Bool.not_false, if_true]
      rw [ih (knownAlloc ++ [alloc.ID]), List.map_cons, List.mem_cons, List.mem_append,
        List.mem_singleton]
      tauto

/-- What one cycle of `monitorJob` does to `knownAlloc`. -/
theorem jobCycle_known (d : Dispatcher) (s : JobVars) (p : JobPoll) (h : s.knownAlloc.Nodup) :
    (jobCycle d s p).st.knownAlloc = s.knownAlloc ++ launches (jobCycle d s p).acts ∧
      (jobCycle d s p).st.knownAlloc.Nodup ∧
      ∀ allocID, allocID ∈ (jobCycle d s p).st.knownAlloc ↔
        allocID ∈ s.knownAlloc ∨
          (p.reachesLaunch = true ∧ allocID ∈ p.allocs.map AllocationListStub.ID) := by
  cases hp : p.failed with
  | true =>
    obtain ⟨i, hi⟩ := firstError_of_failed p hp
    simp only [jobCycle, hi, JobPoll.reachesLaunch, hp]
    split <;> simp [launches, Action.launched, h]
  | false =>
    simp only [jobCycle, firstError_of_not_failed p hp, JobPoll.reachesLaunch, hp]
    by_cases hd : p.job.Status = "dead"
    · simp only [hd, if_true]
      split <;> simp [launches, Action.launched, h]
    · simp only [hd, if_false]
      refine ⟨?_, launchAllocs_nodup _ _ h, ?_⟩
      · rw [launches_append, launchAllocs_known]
        split <;> simp [launches, Action.launched]
      · intro allocID
        rw [launchAllocs_mem]
        simp [hd]

/-- The invariant of the `job:` loop about `knownAlloc`, from any loop state. -/
theorem jobLoop_known (d : Dispatcher) (s : JobVars) (ps : List JobPoll)
    (h : s.knownAlloc.Nodup) :
    (forLoop (jobCycle d) s ps).st.knownAlloc
        = s.knownAlloc ++ launches (forLoop (jobCycle d) s ps).trace ∧
      (forLoop (jobCycle d) s ps).st.knownAlloc.Nodup ∧
      ∀ allocID, allocID ∈ (forLoop (jobCycle d) s ps).st.knownAlloc ↔
        allocID ∈ s.knownAlloc ∨
          ∃ p ∈ (ps.take (forLoop (jobCycle d) s ps).polls).filter JobPoll.reachesLaunch,
            allocID ∈ p.allocs.map AllocationListStub.ID := by
  induction ps generalizing s with
  | nil => simp [forLoop, launches, h]
  | cons p ps ih =>
    obtain ⟨c1, c2, c3⟩ := jobCycle_known d s p h
    cases hx : (jobCycle d s p).exit with
    | some r =>
      rw [forLoop_cons_some _ s p ps r hx]
      refine ⟨c1, c2, ?_⟩
      intro allocID
      rw [c3 allocID]
      cases hr : p.reachesLaunch <;> simp [List.filter_cons, hr]
    | none =>
      rw [forLoop_cons_none _ s p ps hx]
      obtain ⟨i1, i2, i3⟩ := ih (jobCycle d s p).st c2
      refine ⟨?_, i2, ?_⟩
      · simp only
        rw [i1, c1, launches_append, List.append_assoc]
      · intro allocID
        simp only [List.take_succ_cons]
        rw [i3 allocID, c3 allocID]
        cases hr : p.reachesLaunch <;> simp [List.filter_cons, hr, or_assoc]

/-- C2, as the code has it.  For every sequence of poll responses, `knownAlloc` never
contains a duplicate, and an allocation ID triggers exactly one `monitorAlloc` launch
when it appears (any number of times) in the allocation list of a cycle that reached
the launch loop, and no launch otherwise. -/
theorem launch_once_per_listed_id (d : Dispatcher) (polls : List JobPoll) :
    (monitorJob d polls).st.knownAlloc.Nodup ∧
      (∀ allocID,
        (∃ p ∈ launchCycles d polls, allocID ∈ p.allocs.map AllocationListStub.ID) →
          (monitorJob d polls).trace.count (Action.goMonitorAlloc allocID) = 1) ∧
      (∀ allocID,
        (¬ ∃ p ∈ launchCycles d polls, allocID ∈ p.allocs.map AllocationListStub.ID) →
          (monitorJob d polls).trace.count (Action.goMonitorAlloc allocID) = 0) := by
  obtain ⟨h1, h2, h3⟩ :=
    jobLoop_known d { retry := 0, knownAlloc := [], saveState := "none" } polls List.nodup_nil
  simp only [List.nil_append, List.not_mem_nil, false_or] at h1 h3
  refine ⟨h2, ?_, ?_⟩
  · intro allocID hex
    rw [count_goMonitorAlloc]
    have hmem : allocID ∈ launches (monitorJob d polls).trace := by
      unfold monitorJob
      rw [← h1, h3]
      exact hex
    have hnd : (launches (monitorJob d polls).trace).Nodup := by
      unfold monitorJob
      rw [← h1]
      exact h2
    exact List.count_eq_one_of_mem hnd hmem
  · intro allocID hex
    rw [count_goMonitorAlloc, List.count_eq_zero]
    intro hmem
    apply hex
    unfold monitorJob at hmem
    rw [← h1, h3] at hmem
    exact hmem

/-- C2, counterexample to the claim as stated: the first poll succeeds, reports the job
`dead` and lists allocation `a1`; `monitorJob` returns nil after that poll and has
launched no watcher for `a1`. -/
theorem launch_exactly_once_counterexample :
    "a1" ∈ (([⟨⟨"dead"⟩, none, [⟨"a1"⟩], none⟩] : List JobPoll).flatMap
        (fun p => p.allocs.map AllocationListStub.ID)) ∧
      (monitorJob ⟨3, 3⟩ [⟨⟨"dead"⟩, none, [⟨"a1"⟩], none⟩]).result = some Exit.ok ∧
      (monitorJob ⟨3, 3⟩ [⟨⟨"dead"⟩, none, [⟨"a1"⟩], none⟩]).polls = 1 ∧
      (monitorJob ⟨3, 3⟩ [⟨⟨"dead"⟩, none, [⟨"a1"⟩], none⟩]).trace.count
        (Action.goMonitorAlloc "a1") = 0 := by
  decide

/-! ## `monitorAlloc`: what happens to one task -/

theorem taskTrace_append (taskN : String) (cts : state) (xs ys : List TaskState) :
    taskTrace taskN cts (xs ++ ys)
      = taskTrace taskN cts xs ++ taskTrace taskN (storedAfter cts xs) ys := by
  induction xs generalizing cts with
  | nil => simp [taskTrace, storedAfter]
  | cons x xs ih => simp [taskTrace, storedAfter, ih]

theorem storedAfter_append (cts : state) (xs ys : List TaskState) :
    storedAfter cts (xs ++ ys) = storedAfter (storedAfter cts xs) ys := by
  induction xs generalizing cts with
  | nil => simp [storedAfter]
  | cons x xs ih => simp [storedAfter, ih]

theorem logEvents_eq (taskN : String) (stored i : Nat) (events : List TaskEvent) :
    logEvents taskN stored i events
      = (events.drop (stored - i)).map (Action.taskEvent taskN) := by
  induction events generalizing i with
  | nil => simp [logEvents]
  | cons e events ih =>
    by_cases h : i ≥ stored
    · have h0 : stored - i = 0 := by omega
      have h1 : stored - (i + 1) = 0 := by omega
      simp [logEvents, h, ih, h0, h1]
    · have h0 : stored - i = (stored - (i + 1)) + 1 := by omega
      simp only [logEvents, h, if_false, List.nil_append, ih]
      rw [h0, List.drop_succ_cons]

theorem filter_ofTask_events (taskN : String) (events : List TaskEvent) :
    ((events.map (Action.taskEvent taskN)).filter (Action.ofTask taskN))
      = events.map (Action.taskEvent taskN) := by
  induction events with
  | nil => rfl
  | cons e events ih => simp [Action.ofTask, ih]

theorem filter_ofTask_events_other (taskN t : String) (h : t ≠ taskN)
    (events : List TaskEvent) :
    ((events.map (Action.taskEvent t)).filter (Action.ofTask taskN)) = [] := by
  induction events with
  | nil => rfl
  | cons e events ih => simp [Action.ofTask, h]

theorem taskCycle_same (ts : String → Option state) (taskN : String) (task : TaskState) :
    lookupState (taskCycle ts taskN task).1 taskN
        = { State := task.State, Events := task.Events.length } ∧
      (taskCycle ts taskN task).2.filter (Action.ofTask taskN)
        = taskActs taskN (lookupState ts taskN) task := by
  constructor
  · simp [taskCycle, lookupState]
  · simp only [taskCycle, taskActs, logEvents_eq, List.filter_append, filter_ofTask_events,
      Nat.sub_zero]
    congr 1
    split_ifs with h1 h2 h3 h3 h3 <;>
      first
        | rfl
        | (simp [Action.ofTask, List.filter_cons]; done)
        | (exfalso; tauto)

theorem taskCycle_other (ts : String → Option state) (taskN t : String) (task : TaskState)
    (h : t ≠ taskN) :
    lookupState (taskCycle ts t task).1 taskN = lookupState ts taskN ∧
      (taskCycle ts t task).2.filter (Action.ofTask taskN) = [] := by
  constructor
  · simp [taskCycle, lookupState, Ne.symm h]
  · simp only [taskCycle, logEvents_eq, List.filter_append,
      filter_ofTask_events_other taskN t h, Nat.sub_zero, List.append_nil]
    split_ifs with h1 h2 <;> simp [Action.ofTask, List.filter_cons, h]

/-- The task loop, seen from one task. -/
theorem inspectTasks_task (taskN : String) (ts : String → Option state)
    (tasks : List (String × TaskState)) :
    lookupState (inspectTasks ts tasks).1 taskN
        = storedAfter (lookupState ts taskN) (taskEntries taskN tasks) ∧
      (inspectTasks ts tasks).2.filter (Action.ofTask taskN)
        = taskTrace taskN (lookupState ts taskN) (taskEntries taskN tasks) := by
  induction tasks generalizing ts with
  | nil => simp [inspectTasks, taskEntries, storedAfter, taskTrace]
  | cons e tasks ih =>
    obtain ⟨t, task⟩ := e
    obtain ⟨i1, i2⟩ := ih (taskCycle ts t task).1
    by_cases h : t = taskN
    · subst h
      obtain ⟨c1, c2⟩ := taskCycle_same ts t task
      have he : taskEntries t ((t, task) :: tasks) = task :: taskEntries t tasks := by
        simp [taskEntries, List.filter_cons]
      simp only [inspectTasks, he, storedAfter, taskTrace, List.filter_append]
      rw [i1, i2, c1, c2]
      exact ⟨rfl, rfl⟩
    · obtain ⟨c1, c2⟩ := taskCycle_other ts taskN t task h
      have he : taskEntries taskN ((t, task) :: tasks) = taskEntries taskN tasks := by
        simp [taskEntries, List.filter_cons, h]
      simp only [inspectTasks, he, List.filter_append]
      rw [i1, i2, c1, c2]
      exact ⟨rfl, rfl⟩

/-- One cycle of `monitorAlloc`, seen from one task. -/
theorem allocCycle_task (d : Dispatcher) (taskN : String) (s : AllocVars) (p : AllocPoll) :
    lookupState (allocCycle d s p).st.ts taskN
        = storedAfter (lookupState s.ts taskN) (cycleObs taskN p) ∧
      (allocCycle d s p).acts.filter (Action.ofTask taskN)
        = taskTrace taskN (lookupState s.ts taskN) (cycleObs taskN p) := by
  rcases p with ⟨a, err⟩
  cases err with
  | some e =>
    simp only [allocCycle, cycleObs, AllocPoll.inspected, AllocPoll.failed]
    split <;> simp [storedAfter, taskTrace, Action.ofTask]
  | none =>
    by_cases h1 : a.ClientStatus = AllocClientStatusComplete
    · simp [allocCycle, cycleObs, AllocPoll.inspected, h1, storedAfter, taskTrace,
        Action.ofTask]
    · by_cases h2 : a.ClientStatus = AllocClientStatusFailed
          ∨ a.ClientStatus = AllocClientStatusLost
      · simp only [allocCycle, h1, h2, if_false, if_true]
        have hc : cycleObs taskN ⟨a, none⟩ = [] := by
          rcases h2 with h2 | h2 <;> simp [cycleObs, AllocPoll.inspected, h2]
        rw [hc]
        split <;> simp [storedAfter, taskTrace, Action.ofTask]
      · simp only [allocCycle, h1, h2, if_false]
        have hc : cycleObs taskN ⟨a, none⟩ = taskEntries taskN a.TaskStates := by
          rw [not_or] at h2
          simp [cycleObs, AllocPoll.inspected, AllocPoll.failed, h1, h2.1, h2.2]
        rw [hc]
        exact inspectTasks_task taskN s.ts a.TaskStates

theorem taskObs_cons (taskN : String) (p : AllocPoll) (ps : List AllocPoll) :
    taskObs taskN (((p :: ps).filter AllocPoll.inspected).map AllocPoll.a)
      = cycleObs taskN p ++ taskObs taskN ((ps.filter AllocPoll.inspected).map AllocPoll.a) := by
  cases h : p.inspected <;> simp [taskObs, cycleObs, List.filter_cons, h]

/-- The loop of `monitorAlloc`, seen from one task, from any loop state. -/
theorem allocLoop_task (d : Dispatcher) (taskN : String) (s : AllocVars)
    (ps : List AllocPoll) :
    (forLoop (allocCycle d) s ps).trace.filter (Action.ofTask taskN)
      = taskTrace taskN (lookupState s.ts taskN)
          (taskObs taskN (((ps.take (forLoop (allocCycle d) s ps).polls).filter
            AllocPoll.inspected).map AllocPoll.a)) := by
  induction ps generalizing s with
  | nil => simp [forLoop, taskObs, taskTrace]
  | cons p ps ih =>
    obtain ⟨c1, c2⟩ := allocCycle_task d taskN s p
    cases hx : (allocCycle d s p).exit with
    | some r =>
      rw [forLoop_cons_some _ s p ps r hx]
      simp only [List.take_succ_cons, List.take_zero]
      rw [taskObs_cons, c2]
      simp [taskObs]
    | none =>
      rw [forLoop_cons_none _ s p ps hx]
      simp only [List.take_succ_cons, List.filter_append]
      rw [taskObs_cons, taskTrace_append, c2, ih, c1]

/-- The whole of `monitorAlloc`, seen from one task. -/
theorem monitorAlloc_task (d : Dispatcher) (taskN : String) (polls : List AllocPoll) :
    (monitorAlloc d polls).trace.filter (Action.ofTask taskN)
      = taskTrace taskN { State := "none", Events := 0 }
          (taskObs taskN (inspectedCycles d polls)) := by
  have h := allocLoop_task d taskN { retry := 0, ts := fun _ => none } polls
  have hl : lookupState (fun _ => none) taskN = { State := "none", Events := 0 } := rfl
  rw [hl] at h
  unfold inspectedCycles
  rw [monitorAlloc_polls]
  unfold monitorAllocLoop
  rw [← h]
  unfold monitorAlloc monitorAllocLoop
  split
  · simp [List.filter_append, Action.ofTask]
  · rfl

/-! ## `monitorAlloc`: log streams -/

theorem count_taskActs_stream (taskN kind label : String) (cts : state) (task : TaskState)
    (h : (kind = "stdout" ∧ label = "STDOUT:") ∨ (kind = "stderr" ∧ label = "STDERR:")) :
    (taskActs taskN cts task).count (Action.goMonitorLog taskN kind label)
      = if cts.State ≠ "running" ∧ task.State = "running" then 1 else 0 := by
  have h0 : ((task.Events.drop cts.Events).map (Action.taskEvent taskN)).count
      (Action.goMonitorLog taskN kind label) = 0 := by
    rw [List.count_eq_zero, List.mem_map]
    rintro ⟨e, _, he⟩
    simp at he
  rw [taskActs, List.count_append, h0, Nat.add_zero]
  by_cases h2 : task.State = "running"
  · by_cases h1 : cts.State = "running"
    · simp [h1, h2]
    · have h3 : cts.State ≠ task.State := by rw [h2]; exact h1
      rw [if_pos ⟨h3, h2⟩, if_pos ⟨h1, h2⟩]
      rcases h with ⟨rfl, rfl⟩ | ⟨rfl, rfl⟩ <;> simp [List.count_cons]
  · simp [h2]

theorem count_taskTrace_stream (taskN kind label : String) (cts : state)
    (obs : List TaskState)
    (h : (kind = "stdout" ∧ label = "STDOUT:") ∨ (kind = "stderr" ∧ label = "STDERR:")) :
    (taskTrace taskN cts obs).count (Action.goMonitorLog taskN kind label)
      = runningEntries cts.State (obs.map TaskState.State) := by
  induction obs generalizing cts with
  | nil => rfl
  | cons task rest ih =>
    rw [taskTrace, List.count_append, count_taskActs_stream taskN kind label cts task h, ih]
    rfl

theorem mem_taskTrace (taskN : String) (cts : state) (obs : List TaskState) (x : Action)
    (h : x ∈ taskTrace taskN cts obs) :
    x = Action.goMonitorLog taskN "stdout" "STDOUT:" ∨
      x = Action.goMonitorLog taskN "stderr" "STDERR:" ∨ ∃ e, x = Action.taskEvent taskN e := by
  induction obs generalizing cts with
  | nil => simp [taskTrace] at h
  | cons task rest ih =>
    rw [taskTrace, List.mem_append] at h
    rcases h with h | h
    · rw [taskActs, List.mem_append] at h
      rcases h with h | h
      · split_ifs at h
        · simp only [List.mem_cons, List.mem_singleton, List.not_mem_nil, or_false] at h
          tauto
        · simp at h
      · rw [List.mem_map] at h
        obtain ⟨e, _, he⟩ := h
        exact Or.inr (Or.inr ⟨e, he.symm⟩)
    · exact ih _ h

/-- C4. For every sequence of allocation poll responses in which `monitorAlloc`
observes task `taskN` change into `running` exactly once (exactly one inspected cycle
where the stored state differs from `running` and the reported state is `running`),
exactly one stdout stream and exactly one stderr stream are started for that task,
and no other stream. -/
theorem two_streams_for_one_running_entry (d : Dispatcher) (polls : List AllocPoll)
    (taskN : String)
    (h : runningEntries "none"
      ((taskObs taskN (inspectedCycles d polls)).map TaskState.State) = 1) :
    (monitorAlloc d polls).trace.count (Action.goMonitorLog taskN "stdout" "STDOUT:") = 1 ∧
      (monitorAlloc d polls).trace.count (Action.goMonitorLog taskN "stderr" "STDERR:") = 1 ∧
      ∀ kind label, Action.goMonitorLog taskN kind label ∈ (monitorAlloc d polls).trace →
        (kind = "stdout" ∧ label = "STDOUT:") ∨ (kind = "stderr" ∧ label = "STDERR:") := by
  have ht := monitorAlloc_task d taskN polls
  refine ⟨?_, ?_, ?_⟩
  · rw [← List.count_filter (p := Action.ofTask taskN) (by simp [Action.ofTask]), ht,
      count_taskTrace_stream taskN _ _ _ _ (Or.inl ⟨rfl, rfl⟩)]
    exact h
  · rw [← List.count_filter (p := Action.ofTask taskN) (by simp [Action.ofTask]), ht,
      count_taskTrace_stream taskN _ _ _ _ (Or.inr ⟨rfl, rfl⟩)]
    exact h
  · intro kind label hmem
    have h1 : Action.goMonitorLog taskN kind label
        ∈ (monitorAlloc d polls).trace.filter (Action.ofTask taskN) := by
      rw [List.mem_filter]
      exact ⟨hmem, by simp [Action.ofTask]⟩
    rw [ht] at h1
    rcases mem_taskTrace taskN _ _ _ h1 with h2 | h2 | ⟨e, h2⟩
    · simp only [Action.goMonitorLog.injEq] at h2
      exact Or.inl ⟨h2.2.1, h2.2.2⟩
    · simp only [Action.goMonitorLog.injEq] at h2
      exact Or.inr ⟨h2.2.1, h2.2.2⟩
    · simp at h2

/-- C3, the code at the failing input: three successful polls of a running allocation
whose task `t` is reported `running`, then `pending`, then `running` again.  The
stdout stream and the stderr stream of `t` are each started twice. -/
theorem log_streams_restart_when_running_again :
    (monitorAlloc ⟨3, 3⟩
      [⟨⟨"running", (0, 0), [("t", ⟨"running", []⟩)]⟩, none⟩,
       ⟨⟨"running", (0, 0), [("t", ⟨"pending", []⟩)]⟩, none⟩,
       ⟨⟨"running", (0, 0), [("t", ⟨"running", []⟩)]⟩, none⟩]).trace
      = [Action.logDebug "Task state: none => running",
         Action.goMonitorLog "t" "stdout" "STDOUT:",
         Action.goMonitorLog "t" "stderr" "STDERR:",
         Action.logDebug "Task state: running => pending",
         Action.logDebug "Task state: pending => running",
         Action.goMonitorLog "t" "stdout" "STDOUT:",
         Action.goMonitorLog "t" "stderr" "STDERR:"] := by
  decide

/-! ## `monitorAlloc`: task events -/

theorem emitted_append (taskN : String) (xs ys : List Action) :
    emitted taskN (xs ++ ys) = emitted taskN xs ++ emitted taskN ys := by
  simp [emitted, List.filterMap_append]

theorem emitted_filter (taskN : String) (trace : List Action) :
    emitted taskN (trace.filter (Action.ofTask taskN)) = emitted taskN trace := by
  induction trace with
  | nil => rfl
  | cons a trace ih =>
    cases a with
    | taskEvent t e =>
      by_cases h : t = taskN
      · simp [emitted, List.filter_cons, Action.ofTask, Action.event, h,
          List.filterMap_cons] at ih ⊢
        exact ih
      · simp [emitted, List.filter_cons, Action.ofTask, Action.event, h,
          List.filterMap_cons] at ih ⊢
        exact ih
    | goMonitorLog t kind label =>
      by_cases h : t = taskN
      · simp [emitted, List.filter_cons, Action.ofTask, Action.event, h,
          List.filterMap_cons] at ih ⊢
        exact ih
      · simp [emitted, List.filter_cons, Action.ofTask, Action.event, h,
          List.filterMap_cons] at ih ⊢
        exact ih
    | _ =>
      simp [emitted, List.filter_cons, Action.ofTask, Action.event,
        List.filterMap_cons] at ih ⊢
      exact ih

theorem emitted_events (taskN : String) (events : List TaskEvent) :
    emitted taskN (events.map (Action.taskEvent taskN)) = events := by
  induction events with
  | nil => rfl
  | cons e events ih =>
    simp [emitted, Action.event, List.filterMap_cons] at ih ⊢
    exact ih

theorem emitted_taskActs (taskN : String) (cts : state) (task : TaskState) :
    emitted taskN (taskActs taskN cts task) = task.Events.drop cts.Events := by
  rw [taskActs, emitted_append, emitted_events]
  split_ifs <;> simp [emitted, Action.event]

/-- Along append-only observations, what is emitted is the last event list minus the
events already counted. -/
theorem emitted_taskTrace (taskN : String) (rest : List TaskState) (task : TaskState)
    (cts : state)
    (hc : List.Chain' (fun p q : TaskState => p.Events <+: q.Events) (task :: rest))
    (hle : cts.Events ≤ task.Events.length) :
    ∃ last, (task :: rest).getLast? = some last ∧ task.Events <+: last.Events ∧
      emitted taskN (taskTrace taskN cts (task :: rest)) = last.Events.drop cts.Events := by
  induction rest generalizing task cts with
  | nil =>
    refine ⟨task, rfl, List.prefix_refl _, ?_⟩
    rw [taskTrace, taskTrace, List.append_nil, emitted_taskActs]
  | cons task2 rest ih =>
    rw [List.chain'_cons] at hc
    obtain ⟨last, h1, h2, h3⟩ :=
      ih task2 { State := task.State, Events := task.Events.length } hc.2 hc.1.length_le
    refine ⟨last, ?_, hc.1.trans h2, ?_⟩
    · rw [List.getLast?_cons_cons]; exact h1
    · rw [taskTrace, emitted_append, emitted_taskActs, h3]
      obtain ⟨t, ht⟩ := hc.1.trans h2
      rw [← ht, List.drop_append_of_le_length hle, List.drop_left]

/-- C5. Within one `monitorAlloc` invocation, on each pass of the task loop exactly the
events with index at or above the stored event count are emitted, in order, and the
stored count becomes the number of events; hence for every task whose event list in
each inspected cycle extends that of the previous inspected cycle, the events emitted
over all cycles, in order, are exactly the event list of the last inspected cycle:
each event is logged exactly once. -/
theorem events_logged_exactly_once (d : Dispatcher) (taskN : String) :
    (∀ (ts : String → Option state) (task : TaskState),
      emitted taskN (taskCycle ts taskN task).2
          = task.Events.drop (lookupState ts taskN).Events ∧
        (lookupState (taskCycle ts taskN task).1 taskN).Events = task.Events.length) ∧
    (∀ polls : List AllocPoll,
      List.Chain' (fun p q : TaskState => p.Events <+: q.Events)
        (taskObs taskN (inspectedCycles d polls)) →
      emitted taskN (monitorAlloc d polls).trace
        = (((taskObs taskN (inspectedCycles d polls)).getLast?).map TaskState.Events).getD
            []) := by
  constructor
  · intro ts task
    obtain ⟨c1, c2⟩ := taskCycle_same ts taskN task
    rw [← emitted_filter, c2, emitted_taskActs, c1]
    exact ⟨rfl, rfl⟩
  · intro polls hc
    rw [← emitted_filter, monitorAlloc_task]
    cases hobs : taskObs taskN (inspectedCycles d polls) with
    | nil => rfl
    | cons task rest =>
      rw [hobs] at hc
      obtain ⟨last, h1, _, h3⟩ :=
        emitted_taskTrace taskN rest task { State := "none", Events := 0 } hc (Nat.zero_le _)
      rw [h3, h1]
      rfl

/-! ## `monitorAlloc`: terminal statuses and the cancel signal -/

theorem monitorAlloc_of_running (d : Dispatcher) (polls : List AllocPoll)
    (h : (monitorAllocLoop d polls).result = none) :
    monitorAlloc d polls = monitorAllocLoop d polls := by
  unfold monitorAlloc
  rw [h]

theorem monitorAlloc_trace_of_returned (d : Dispatcher) (polls : List AllocPoll) (r : Exit)
    (h : (monitorAllocLoop d polls).result = some r) :
    (monitorAlloc d polls).trace = (monitorAllocLoop d polls).trace ++ [Action.closeCancel] := by
  unfold monitorAlloc
  rw [h]

/-- C6. For every successfully fetched allocation whose client status is `failed` or
`lost`, with reschedule counters `(done, left)`: `monitorAlloc` returns nil if and only
if `left > done` and otherwise returns the error `no reschedule attempts left`.  On
that cycle it only logs the status line (and the attempt counters when it returns
nil): no task is inspected and no log stream is started; the function returns at that
poll. -/
theorem failed_or_lost_returns (d : Dispatcher) (pre : List AllocPoll) (a : Allocation)
    (rest : List AllocPoll) (hrun : (monitorAlloc d pre).result = none)
    (hst : a.ClientStatus = AllocClientStatusFailed ∨ a.ClientStatus = AllocClientStatusLost) :
    ((monitorAlloc d (pre ++ ⟨a, none⟩ :: rest)).result = some Exit.ok
        ↔ a.RescheduleInfo.2 > a.RescheduleInfo.1) ∧
      (¬ a.RescheduleInfo.2 > a.RescheduleInfo.1 →
        (monitorAlloc d (pre ++ ⟨a, none⟩ :: rest)).result
          = some (Exit.error "no reschedule attempts left")) ∧
      (monitorAlloc d (pre ++ ⟨a, none⟩ :: rest)).polls = pre.length + 1 ∧
      (monitorAlloc d (pre ++ ⟨a, none⟩ :: rest)).trace
        = (monitorAlloc d pre).trace
          ++ (Action.logWarn ("allocation " ++ a.ClientStatus) ::
              (if a.RescheduleInfo.2 > a.RescheduleInfo.1 then
                [Action.logInfo ("reschedule attempt " ++ toString a.RescheduleInfo.1 ++ " of "
                  ++ toString a.RescheduleInfo.2)]
              else []))
          ++ [Action.closeCancel] := by
  rw [monitorAlloc_result] at hrun
  have hnc : a.ClientStatus ≠ AllocClientStatusComplete := by
    rcases hst with h | h <;> rw [h] <;> decide
  have hsnoc := forLoop_snoc (allocCycle d) { retry := 0, ts := fun _ => none } pre ⟨a, none⟩ hrun
  have hcyc : ∀ s : AllocVars,
      (allocCycle d s ⟨a, none⟩).exit
          = some (if a.RescheduleInfo.2 > a.RescheduleInfo.1 then Exit.ok
              else Exit.error "no reschedule attempts left") ∧
        (allocCycle d s ⟨a, none⟩).acts
          = Action.logWarn ("allocation " ++ a.ClientStatus) ::
              (if a.RescheduleInfo.2 > a.RescheduleInfo.1 then
                [Action.logInfo ("reschedule attempt " ++ toString a.RescheduleInfo.1 ++ " of "
                  ++ toString a.RescheduleInfo.2)]
              else []) := by
    intro s
    simp only [allocCycle, hnc, hst, if_false, if_true]
    split <;> exact ⟨rfl, rfl⟩
  have hres : (monitorAllocLoop d (pre ++ [⟨a, none⟩])).result
      = some (if a.RescheduleInfo.2 > a.RescheduleInfo.1 then Exit.ok
          else Exit.error "no reschedule attempts left") := by
    unfold monitorAllocLoop
    rw [hsnoc]
    exact (hcyc _).1
  have happ : monitorAllocLoop d (pre ++ ⟨a, none⟩ :: rest)
      = monitorAllocLoop d (pre ++ [⟨a, none⟩]) := by
    have hres2 := hres
    unfold monitorAllocLoop at hres2 ⊢
    have := forLoop_append_of_returned (allocCycle d) { retry := 0, ts := fun _ => none }
      (pre ++ [AllocPoll.mk a none]) rest _ hres2
    rw [List.append_assoc, List.singleton_append] at this
    exact this
  refine ⟨?_, ?_, ?_, ?_⟩
  · rw [monitorAlloc_result, happ, hres]
    split_ifs with h <;> simp [h]
  · intro h
    rw [monitorAlloc_result, happ, hres, if_neg h]
  · rw [monitorAlloc_polls, happ]
    unfold monitorAllocLoop
    rw [hsnoc]
  · rw [monitorAlloc_trace_of_returned d _ _ (happ ▸ hres), happ,
      monitorAlloc_of_running d pre hrun]
    unfold monitorAllocLoop
    rw [hsnoc]
    simp only
    rw [(hcyc _).2]

theorem closeCancel_not_mem_logEvents (taskN : String) (stored i : Nat)
    (events : List TaskEvent) : Action.closeCancel ∉ logEvents taskN stored i events := by
  rw [logEvents_eq, List.mem_map]
  rintro ⟨e, _, he⟩
  simp at he

theorem closeCancel_not_mem_inspectTasks (ts : String → Option state)
    (tasks : List (String × TaskState)) : Action.closeCancel ∉ (inspectTasks ts tasks).2 := by
  induction tasks generalizing ts with
  | nil => simp [inspectTasks]
  | cons e tasks ih =>
    obtain ⟨t, task⟩ := e
    simp only [inspectTasks, List.mem_append, not_or]
    refine ⟨?_, ih _⟩
    simp only [taskCycle, List.mem_append, not_or]
    refine ⟨?_, closeCancel_not_mem_logEvents _ _ _ _⟩
    split_ifs <;> simp

theorem closeCancel_not_mem_allocCycle (d : Dispatcher) (s : AllocVars) (p : AllocPoll) :
    Action.closeCancel ∉ (allocCycle d s p).acts := by
  rcases p with ⟨a, err⟩
  cases err with
  | some e =>
    simp only [allocCycle]
    split <;> simp
  | none =>
    simp only [allocCycle]
    split_ifs <;> first | (simp; done) | exact closeCancel_not_mem_inspectTasks _ _

theorem closeCancel_not_mem_loop (d : Dispatcher) (s : AllocVars) (ps : List AllocPoll) :
    Action.closeCancel ∉ (forLoop (allocCycle d) s ps).trace := by
  induction ps generalizing s with
  | nil => simp [forLoop]
  | cons p ps ih =>
    cases hx : (allocCycle d s p).exit with
    | some r =>
      rw [forLoop_cons_some _ s p ps r hx]
      exact closeCancel_not_mem_allocCycle d s p
    | none =>
      rw [forLoop_cons_none _ s p ps hx]
      simp only [List.mem_append, not_or]
      exact ⟨closeCancel_not_mem_allocCycle d s p, ih _⟩

/-- The ways in which the loop of `monitorAlloc` returns. -/
theorem allocLoop_exits (d : Dispatcher) (s : AllocVars) (ps : List AllocPoll) (r : Exit)
    (h : (forLoop (allocCycle d) s ps).result = some r) :
    r = Exit.ok ∨ r = Exit.error "no reschedule attempts left"
      ∨ r = Exit.error (allocRetryError d) := by
  induction ps generalizing s with
  | nil => simp [forLoop] at h
  | cons p ps ih =>
    cases hx : (allocCycle d s p).exit with
    | some r' =>
      rw [forLoop_cons_some _ s p ps r' hx] at h
      simp only [Option.some.injEq] at h
      subst h
      rcases p with ⟨a, err⟩
      cases err with
      | some e =>
        simp only [allocCycle] at hx
        split_ifs at hx
        simp only [Option.some.injEq] at hx
        exact Or.inr (Or.inr hx.symm)
      | none =>
        simp only [allocCycle] at hx
        split_ifs at hx <;> simp only [Option.some.injEq] at hx
        · exact Or.inl hx.symm
        · exact Or.inl hx.symm
        · exact Or.inr (Or.inl hx.symm)
    | none =>
      rw [forLoop_cons_none _ s p ps hx] at h
      exact ih _ h

/-- C9. `monitorAlloc` closes the cancel signal of its log streams exactly when it
returns: while it is in its loop the signal has not been closed, and on every return
(nil after `complete`, nil after `failed`/`lost` with attempts left, the error
`no reschedule attempts left`, the retry-exhausted error) closing the signal is the
one and last thing it has done. -/
theorem cancel_closed_exactly_on_return (d : Dispatcher) (polls : List AllocPoll) :
    ((monitorAlloc d polls).result = none →
        Action.closeCancel ∉ (monitorAlloc d polls).trace) ∧
      (∀ r, (monitorAlloc d polls).result = some r →
        (r = Exit.ok ∨ r = Exit.error "no reschedule attempts left"
          ∨ r = Exit.error (allocRetryError d)) ∧
        ∃ before, (monitorAlloc d polls).trace = before ++ [Action.closeCancel] ∧
          Action.closeCancel ∉ before) := by
  constructor
  · intro h
    rw [monitorAlloc_result] at h
    rw [monitorAlloc_of_running d polls h]
    exact closeCancel_not_mem_loop d _ polls
  · intro r h
    rw [monitorAlloc_result] at h
    refine ⟨allocLoop_exits d _ polls r h, (monitorAllocLoop d polls).trace, ?_, ?_⟩
    · exact monitorAlloc_trace_of_returned d polls r h
    · exact closeCancel_not_mem_loop d _ polls

/-! ## `monitorLog` -/

/-- C10, the code at the failing input: after one frame the frame feed is closed and
the next receive on it yields a nil frame; `monitorLog` evaluates `l.Data` on it and
faults, without having received from the cancel signal. -/
theorem monitorLog_faults_on_closed_frame_feed :
    monitorLog "STDOUT:" [Recv.frame (some ⟨"a"⟩), Recv.frame none]
      = ([Action.print "STDOUT:a"], LogExit.fault, 2) := by
  decide

/-- On receives that carry a frame or an error, `monitorLog` does not fault, and it
returns exactly at the first receive from the closed cancel signal. -/
theorem monitorLog_of_open_feeds (label : String) (evs : List Recv)
    (h : Recv.frame none ∉ evs ∧ Recv.err none ∉ evs) :
    (monitorLog label evs).2.1 ≠ LogExit.fault ∧
      ((monitorLog label evs).2.1 = LogExit.returned ↔ Recv.cancel false ∈ evs) := by
  induction evs with
  | nil => simp [monitorLog]
  | cons ev evs ih =>
    obtain ⟨h1, h2⟩ := h
    rw [List.mem_cons, not_or] at h1 h2
    obtain ⟨i1, i2⟩ := ih ⟨h1.2, h2.2⟩
    rcases ev with (_ | l) | (_ | e) | (_ | _)
    · exact absurd rfl h1.1
    · simp [monitorLog, i1, i2]
    · exact absurd rfl h2.1
    · simp [monitorLog, i1, i2]
    · simp [monitorLog]
    · simp [monitorLog, i1, i2]

/-! ## The theorems at concrete inputs -/

/-- C1 at a concrete input: ceiling 1; a failure, a success, then two failures in a
row: the error comes at the fourth poll. -/
theorem retry_exhaustion_exact_witness :
    (monitorJob ⟨1, 1⟩ [jobInfoFails "x", jobOk "running" [], jobInfoFails "x",
        jobListFails "running" "y", jobOk "running" []]).result
        = some (Exit.error (jobRetryError ⟨1, 1⟩)) ∧
      (monitorJob ⟨1, 1⟩ [jobInfoFails "x", jobOk "running" [], jobInfoFails "x",
        jobListFails "running" "y", jobOk "running" []]).polls = 3 + 1 :=
  ((retry_exhaustion_exact ⟨1, 1⟩ (by decide) (by decide)).1
    [jobInfoFails "x", jobOk "running" [], jobInfoFails "x", jobListFails "running" "y",
      jobOk "running" []] 3).2 ⟨by decide, by decide, by decide⟩

/-- C2 at a concrete input: `a1` is listed twice in the first response and again in the
second one; one watcher is launched for it. -/
theorem launch_once_per_listed_id_witness :
    (monitorJob ⟨3, 3⟩ [jobOk "running" ["a1", "a1"], jobOk "running" ["a1", "a2"]]).trace.count
      (Action.goMonitorAlloc "a1") = 1 :=
  (launch_once_per_listed_id ⟨3, 3⟩
    [jobOk "running" ["a1", "a1"], jobOk "running" ["a1", "a2"]]).2.1 "a1"
    ⟨jobOk "running" ["a1", "a1"], by decide, by decide⟩

/-- C4 at a concrete input: task `t` is seen `pending`, then `running`, then the
allocation completes. -/
theorem two_streams_for_one_running_entry_witness :
    (monitorAlloc ⟨3, 3⟩ [allocOk "pending" (0, 0) [("t", ⟨"pending", []⟩)],
        allocOk "running" (0, 0) [("t", ⟨"running", []⟩)],
        allocOk "complete" (0, 0) []]).trace.count
        (Action.goMonitorLog "t" "stdout" "STDOUT:") = 1 ∧
      (monitorAlloc ⟨3, 3⟩ [allocOk "pending" (0, 0) [("t", ⟨"pending", []⟩)],
        allocOk "running" (0, 0) [("t", ⟨"running", []⟩)],
        allocOk "complete" (0, 0) []]).trace.count
        (Action.goMonitorLog "t" "stderr" "STDERR:") = 1 :=
  ⟨(two_streams_for_one_running_entry ⟨3, 3⟩
      [allocOk "pending" (0, 0) [("t", ⟨"pending", []⟩)],
        allocOk "running" (0, 0) [("t", ⟨"running", []⟩)],
        allocOk "complete" (0, 0) []] "t" (by decide)).1,
    (two_streams_for_one_running_entry ⟨3, 3⟩
      [allocOk "pending" (0, 0) [("t", ⟨"pending", []⟩)],
        allocOk "running" (0, 0) [("t", ⟨"running", []⟩)],
        allocOk "complete" (0, 0) []] "t" (by decide)).2.1⟩

/-- C5 at a concrete input: events `e0, e1, e2` on the first cycle and
`e0, e1, e2, e3` on the second one are logged as `e0, e1, e2, e3`. -/
theorem events_logged_exactly_once_witness :
    emitted "t" (monitorAlloc ⟨3, 3⟩
      [allocOk "running" (0, 0) [("t", ⟨"running", [ev "e0", ev "e1", ev "e2"]⟩)],
        allocOk "running" (0, 0)
          [("t", ⟨"running", [ev "e0", ev "e1", ev "e2", ev "e3"]⟩)]]).trace
      = [ev "e0", ev "e1", ev "e2", ev "e3"] :=
  ((events_logged_exactly_once ⟨3, 3⟩ "t").2
    [allocOk "running" (0, 0) [("t", ⟨"running", [ev "e0", ev "e1", ev "e2"]⟩)],
      allocOk "running" (0, 0) [("t", ⟨"running", [ev "e0", ev "e1", ev "e2", ev "e3"]⟩)]]
    (by
      have h : taskObs "t" (inspectedCycles ⟨3, 3⟩
          [allocOk "running" (0, 0) [("t", ⟨"running", [ev "e0", ev "e1", ev "e2"]⟩)],
            allocOk "running" (0, 0)
              [("t", ⟨"running", [ev "e0", ev "e1", ev "e2", ev "e3"]⟩)]])
          = [⟨"running", [ev "e0", ev "e1", ev "e2"]⟩,
              ⟨"running", [ev "e0", ev "e1", ev "e2", ev "e3"]⟩] := by decide
      rw [h]
      exact List.Chain'.cons ⟨[ev "e3"], rfl⟩ (List.chain'_singleton _))).trans (by decide)

/-- C6 at concrete inputs: status `failed` with `{done: 1, left: 2}` returns nil, with
`{done: 2, left: 2}` returns the error. -/
theorem failed_or_lost_returns_witness :
    (monitorAlloc ⟨3, 3⟩ ([] ++ ⟨⟨"failed", (1, 2), []⟩, none⟩ :: [])).result = some Exit.ok ∧
      (monitorAlloc ⟨3, 3⟩ ([] ++ ⟨⟨"failed", (2, 2), []⟩, none⟩ :: [])).result
        = some (Exit.error "no reschedule attempts left") :=
  ⟨(failed_or_lost_returns ⟨3, 3⟩ [] ⟨"failed", (1, 2), []⟩ [] rfl (Or.inl rfl)).1.2
      (by decide),
    (failed_or_lost_returns ⟨3, 3⟩ [] ⟨"failed", (2, 2), []⟩ [] rfl (Or.inl rfl)).2.1
      (by decide)⟩

/-- C7 at a concrete input: the job is `dead` on the third poll; a fourth response is
available and is not examined. -/
theorem dead_returns_without_next_poll_witness :
    (monitorJob ⟨3, 3⟩ ([jobOk "running" ["a1"], jobInfoFails "x"] ++ jobOk "dead" ["a1"]
        :: [jobOk "running" ["a1"]])).result = some Exit.ok ∧
      (monitorJob ⟨3, 3⟩ ([jobOk "running" ["a1"], jobInfoFails "x"] ++ jobOk "dead" ["a1"]
        :: [jobOk "running" ["a1"]])).polls
        = [jobOk "running" ["a1"], jobInfoFails "x"].length + 1 :=
  dead_returns_without_next_poll ⟨3, 3⟩ [jobOk "running" ["a1"], jobInfoFails "x"]
    (jobOk "dead" ["a1"]) [jobOk "running" ["a1"]] (by decide) (by decide) (by decide)
    (fun j =>
      match j with
      | 0 => by decide
      | 1 => by decide
      | _ + 2 => by
        rw [List.take_of_length_le (by simp)]
        decide)

/-- C8 at a concrete input: below the ceiling, the job-info fetch succeeds and reports
`dead` while the allocation-list fetch fails: one error line, the counter goes from 0
to 1, and the loop goes on. -/
theorem failed_cycle_counts_once_witness :
    (monitorJob ⟨3, 3⟩ ([jobOk "running" ["a1"]] ++ [jobListFails "dead" "y"])).trace
        = (monitorJob ⟨3, 3⟩ [jobOk "running" ["a1"]]).trace ++ [Action.logError "y"] ∧
      (monitorJob ⟨3, 3⟩ ([jobOk "running" ["a1"]] ++ [jobListFails "dead" "y"])).result
        = none ∧
      (monitorJob ⟨3, 3⟩ ([jobOk "running" ["a1"]] ++ [jobListFails "dead" "y"])).st.retry
        = (monitorJob ⟨3, 3⟩ [jobOk "running" ["a1"]]).st.retry + 1 :=
  match failed_cycle_counts_once ⟨3, 3⟩ [jobOk "running" ["a1"]] (jobListFails "dead" "y")
      (by decide) (by decide) with
  | ⟨_, hi, ht, _, _, hlt, _⟩ =>
    ⟨ht.trans (by
        have h := Option.some.inj (hi.symm.trans (show firstError
          [(jobListFails "dead" "y").jobErr, (jobListFails "dead" "y").allocsErr]
            = some "y" from rfl))
        rw [h]),
      (hlt (by decide)).1, (hlt (by decide)).2⟩

/-- C9 at a concrete input: ceiling 0 and a failed fetch: the function returns the
retry-exhausted error and closing the signal is the last action. -/
theorem cancel_closed_exactly_on_return_witness :
    ∃ before, (monitorAlloc ⟨0, 0⟩ [allocFails "x"]).trace = before ++ [Action.closeCancel] ∧
      Action.closeCancel ∉ before :=
  ((cancel_closed_exactly_on_return ⟨0, 0⟩ [allocFails "x"]).2
    (Exit.error (allocRetryError ⟨0, 0⟩)) (by decide)).2

end NomadDispatcher
